import Mathlib

/-!
Shallow embedding of `gpio-counter.c`, a Linux GPIO impulse-counter driver.

Machine integers are modelled as `Nat` with explicit reduction modulo `2 ^ 64`
where the C type is `unsigned long` (the driver targets a 64-bit kernel).
The GPIO line, the interrupt machinery and the workqueue are the environment:
each entry point takes the raw line level it samples as an explicit `Bool`
argument, and the number of scheduled-but-not-yet-fired instances of the
delayed debounce work item is tracked in the state (`work_outstanding`),
with `delayed_work_pending` true iff it is nonzero.
-/

namespace GpioCounter

/-- `2 ^ 64`, the modulus of the C type `unsigned long` on the 64-bit targets
this driver is built for. -/
def W64 : Nat := 2 ^ 64

/-- Embeds `struct gpio_counter_platform_data` (src/gpio-counter.c:32-36).
`gpio` is an opaque line handle and is not needed by any claim; `inverted`
is the polarity flag (`OF_GPIO_ACTIVE_LOW` yields 0 or 1, so a `Bool`);
`debounce_ms` is the debounce delay in milliseconds, 0 meaning disabled. -/
structure PlatformData where
  inverted : Bool
  debounce_ms : Nat
deriving DecidableEq, Repr

/-- Embeds `struct gpio_counter` (src/gpio-counter.c:38-49).
`count` is the `unsigned long` impulse count (kept below `W64`);
`state` is the last raw-interrupt sample, `last_state` the last committed
state.  `work_outstanding` models the delayed-work machinery: the number of
scheduled-but-unfired instances of `debounce_work` (the kernel guarantees a
`delayed_work` is pending at most once, which the model re-proves as an
invariant rather than assuming). -/
structure Counter where
  pdata : PlatformData
  count : Nat
  state : Bool
  last_state : Bool
  work_outstanding : Nat
deriving DecidableEq, Repr

/-- Embeds `delayed_work_pending(&counter->debounce_work)`. -/
def delayed_work_pending (c : Counter) : Bool :=
  c.work_outstanding != 0

/-- Embeds `gpio_counter_get_state` (src/gpio-counter.c:91-96):
`state = gpio_get_value(gpio); state ^= inverted`.  The raw level returned
by `gpio_get_value` is the explicit argument `raw`. -/
def gpio_counter_get_state (pdata : PlatformData) (raw : Bool) : Bool :=
  xor raw pdata.inverted

/-- Embeds `gpio_counter_process_state_change` (src/gpio-counter.c:98-104):
increment `count` on a rising edge (`state && !last_state`), then always
commit `last_state := state`. -/
def gpio_counter_process_state_change (c : Counter) : Counter :=
  let c1 := if c.state && !c.last_state then { c with count := (c.count + 1) % W64 } else c
  { c1 with last_state := c1.state }

/-- Embeds `gpio_counter_irq` (src/gpio-counter.c:106-120).  Returns the new
counter state together with the delay (in ms, as passed to
`schedule_delayed_work` via `msecs_to_jiffies`) when a debounce work item was
scheduled, `none` otherwise. -/
def gpio_counter_irq (raw : Bool) (c : Counter) : Counter × Option Nat :=
  let c := { c with state := gpio_counter_get_state c.pdata raw }
  if c.pdata.debounce_ms = 0 then
    (gpio_counter_process_state_change c, none)
  else if ¬ delayed_work_pending c then
    ({ c with work_outstanding := c.work_outstanding + 1 }, some c.pdata.debounce_ms)
  else
    (c, none)

/-- Embeds `gpio_counter_debounce_work` (src/gpio-counter.c:122-129).  When
the work item fires it is no longer pending (`work_outstanding` drops by
one); the body takes a fresh sample and runs the confirmation step only if
it matches the interrupt-time sample. -/
def gpio_counter_debounce_work (raw : Bool) (c : Counter) : Counter :=
  let c := { c with work_outstanding := c.work_outstanding - 1 }
  let debounced_state := gpio_counter_get_state c.pdata raw
  if debounced_state = c.state then gpio_counter_process_state_change c else c

/-!
Model of the kernel library function `kstrtoul_from_user(buf, count, 0, res)`
(lib/kstrtox.c), the external collaborator used by `gpio_counter_write`.  The
driver always passes base 0 (auto-detected radix), so the model specialises
the kernel code to that call.  Strings are `List Char`; reading past the end
of the C string yields the NUL terminator, modelled by `List.getD` with a
NUL default.
-/

/-- The NUL terminator of a C string. -/
def nulChar : Char := Char.ofNat 0

/-- Kernel `isxdigit` (include/linux/ctype.h): 0-9, a-f, A-F. -/
def isxdigit (ch : Char) : Bool :=
  let n := ch.toNat
  (decide (48 ≤ n) && decide (n ≤ 57)) ||
  (decide (97 ≤ n) && decide (n ≤ 102)) ||
  (decide (65 ≤ n) && decide (n ≤ 70))

/-- The digit-decoding step of `_parse_integer` (lib/kstrtox.c): characters
are treated as their unsigned numeric codes; `lc = c | 0x20` folds upper-case
hex digits onto lower-case ones. -/
def digitVal (ch : Char) : Option Nat :=
  let n := ch.toNat
  let lc := n ||| 32
  if 48 ≤ n ∧ n ≤ 57 then some (n - 48)
  else if 97 ≤ lc ∧ lc ≤ 102 then some (lc - 97 + 10)
  else none

/-- `_parse_integer_fixup_radix` (lib/kstrtox.c), specialised to base 0:
a leading `0x`/`0X` followed by a hex digit selects base 16 (and is skipped),
any other leading `0` selects base 8, anything else base 10.  `s.getD i
nulChar` is C's `s[i]`, which reads the NUL terminator past the end. -/
def fixup_radix (s : List Char) : List Char × Nat :=
  if s.getD 0 nulChar = '0' then
    if ((s.getD 1 nulChar).toNat ||| 32) = 120 ∧ isxdigit (s.getD 2 nulChar) then
      (s.drop 2, 16)
    else
      (s, 8)
  else
    (s, 10)

/-- The accumulation loop of `_parse_integer` (lib/kstrtox.c): consume
characters while they decode to a digit below `base`, returning the
accumulated value, the number of digits consumed, and the unconsumed rest.
The value is the exact mathematical one: the C code computes it modulo
`2 ^ 64` but sets a sticky overflow flag at the first wrapping step, and
since the value grows monotonically the flag is set iff the exact value
reaches `2 ^ 64`, which `_kstrtoull` checks below. -/
def _parse_integer (base : Nat) : Nat → Nat → List Char → Nat × Nat × List Char
  | res, rv, [] => (res, rv, [])
  | res, rv, ch :: rest =>
    match digitVal ch with
    | none => (res, rv, ch :: rest)
    | some val =>
      if base ≤ val then (res, rv, ch :: rest)
      else _parse_integer base (res * base + val) (rv + 1) rest

/-- `_kstrtoull` (lib/kstrtox.c) at base 0: fix up the radix, parse the
digits, fail with `-ERANGE` (-34) on overflow and `-EINVAL` (-22) when no
digit was consumed or anything but a single trailing newline remains. -/
def _kstrtoull (s : List Char) : Except Int Nat :=
  let fr := fixup_radix s
  let pr := _parse_integer fr.2 0 0 fr.1
  if W64 ≤ pr.1 then Except.error (-34)
  else if pr.2.1 = 0 then Except.error (-22)
  else
    let rem := match pr.2.2 with
      | '\n' :: t => t
      | t => t
    if rem.isEmpty then Except.ok pr.1 else Except.error (-22)

/-- `kstrtoull` at base 0: skip one leading `+` (`s[0]` reads the NUL
terminator on an empty string), then `_kstrtoull`.  On the 64-bit targets
this driver is built for, `kstrtoul` coincides with it (`unsigned long` is
64 bits wide, so the extra range check in `kstrtoul` never fires). -/
def kstrtoul (s : List Char) : Except Int Nat :=
  if s.getD 0 nulChar = '+' then _kstrtoull (s.drop 1) else _kstrtoull s

/-- `kstrtoul_from_user(userbuf, count, 0, res)` (lib/kstrtox.c): copy at
most `min count 66` bytes into a 67-byte kernel buffer, NUL-terminate, and
parse.  `userbuf` is the user memory at the given pointer; the C-string
parse stops at the first NUL byte, modelled by `takeWhile`. -/
def kstrtoul_from_user (userbuf : List Char) (count : Nat) : Except Int Nat :=
  let buf := (userbuf.take (min count 66)).takeWhile (fun ch => ch.toNat ≠ 0)
  kstrtoul buf

/-- Embeds `gpio_counter_write` (src/gpio-counter.c:73-83): parse the user
buffer with `kstrtoul_from_user` directly into `counter->count`; any parse
failure becomes `-EINVAL` (-22) with the count untouched (the kernel parser
writes its result only on success); on success the full byte count is
returned. -/
def gpio_counter_write (c : Counter) (userbuf : List Char) (count : Nat) :
    Counter × Int :=
  match kstrtoul_from_user userbuf count with
  | Except.error _ => (c, -22)
  | Except.ok v => ({ c with count := v }, Int.ofNat count)

/-- Digit-emission loop of `sprintf("%lu", n)`, with explicit structural
recursion fuel so that concrete values reduce inside the kernel.  Any
`fuel ≥ n` yields the full digit string, since `n` has at most `n` decimal
digits for `n ≥ 1` (see `decDigitsAux_fuel_irrel`). -/
def decDigitsAux : Nat → Nat → List Char
  | 0, _ => []
  | fuel + 1, n =>
    if n = 0 then []
    else decDigitsAux fuel (n / 10) ++ [Char.ofNat (48 + n % 10)]

/-- The decimal digits `sprintf(buf, "%lu", n)` produces for a nonzero `n`
(most significant first); empty for `n = 0`. -/
def decDigits (n : Nat) : List Char :=
  decDigitsAux n n

/-- `sprintf(buf, "%lu\n", n)`: the decimal representation of `n` followed
by a newline (src/gpio-counter.c:58). -/
def sprintf_lu_nl (n : Nat) : List Char :=
  (if n = 0 then ['0'] else decDigits n) ++ ['\n']

/-- Outcome of `gpio_counter_read`: an error code, an empty (0-byte) read,
or the transferred bytes together with the updated file position. -/
inductive ReadResult where
  | err (code : Int)
  | empty
  | data (bytes : List Char) (newPos : Nat)
deriving DecidableEq, Repr

/-- Embeds `gpio_counter_read` (src/gpio-counter.c:51-71): format the count
as `"%lu\n"` into a 25-byte buffer (counts are kept below `W64`, so at most
21 bytes are used and `len` is never negative), fail with `-EINVAL` (-22)
when the formatted length exceeds the destination size `count`, return 0
bytes at a nonzero offset, otherwise hand out the bytes and advance `*ppos`
to `len`. -/
def gpio_counter_read (c : Counter) (count : Nat) (ppos : Nat) : ReadResult :=
  let buf := sprintf_lu_nl c.count
  let len := buf.length
  if count < len then ReadResult.err (-22)
  else if ppos ≠ 0 then ReadResult.empty
  else ReadResult.data buf len

/-- Embeds the instance construction in `gpio_counter_probe`
(src/gpio-counter.c:181-207): `kzalloc` zeroes every field, `count` is set
to 0 explicitly, and `last_state` is initialised from a synchronous
`gpio_counter_get_state` read (`raw0` being the level the line shows at
probe time).  No debounce work is scheduled. -/
def gpio_counter_probe (pdata : PlatformData) (raw0 : Bool) : Counter :=
  { pdata := pdata
    count := 0
    state := false
    last_state := gpio_counter_get_state pdata raw0
    work_outstanding := 0 }

/-- One raw interrupt, keeping only the counter state. -/
def irqStep (c : Counter) (raw : Bool) : Counter :=
  (gpio_counter_irq raw c).1

/-- A run of raw interrupts, `raws` listing the level `gpio_get_value`
returns at each one. -/
def runIrqs (c : Counter) (raws : List Bool) : Counter :=
  raws.foldl irqStep c

/-- How many interrupts of a run actually schedule a debounce work item. -/
def countArms (c : Counter) : List Bool → Nat
  | [] => 0
  | raw :: raws =>
    (if (gpio_counter_irq raw c).2.isSome then 1 else 0) +
      countArms (gpio_counter_irq raw c).1 raws

/-- Number of rising edges in a logical-level sequence, `prev` being the
committed level before the first sample. -/
def risingEdges (prev : Bool) : List Bool → Nat
  | [] => 0
  | b :: bs => (if b && !prev then 1 else 0) + risingEdges b bs

/-- The states an instance can reach from `c0`: raw interrupts, debounce
work items (which can only fire while one is scheduled), and external
writes.  Reads do not touch the counter state. -/
inductive Reach (c0 : Counter) : Counter → Prop where
  | init : Reach c0 c0
  | irq (raw : Bool) {c : Counter} : Reach c0 c → Reach c0 (gpio_counter_irq raw c).1
  | work (raw : Bool) {c : Counter} : Reach c0 c → c.work_outstanding ≠ 0 →
      Reach c0 (gpio_counter_debounce_work raw c)
  | write (userbuf : List Char) (count : Nat) {c : Counter} : Reach c0 c →
      Reach c0 (gpio_counter_write c userbuf count).1

/-! ## Helper lemmas -/

@[simp]
theorem process_pdata (c : Counter) :
    (gpio_counter_process_state_change c).pdata = c.pdata := by
  unfold gpio_counter_process_state_change
  split <;> rfl

@[simp]
theorem process_state (c : Counter) :
    (gpio_counter_process_state_change c).state = c.state := by
  unfold gpio_counter_process_state_change
  split <;> rfl

@[simp]
theorem process_last_state (c : Counter) :
    (gpio_counter_process_state_change c).last_state = c.state := by
  unfold gpio_counter_process_state_change
  split <;> rfl

@[simp]
theorem process_work_outstanding (c : Counter) :
    (gpio_counter_process_state_change c).work_outstanding =
      c.work_outstanding := by
  unfold gpio_counter_process_state_change
  split <;> rfl

theorem process_count (c : Counter) :
    (gpio_counter_process_state_change c).count =
      if c.state && !c.last_state then (c.count + 1) % W64 else c.count := by
  unfold gpio_counter_process_state_change
  split <;> simp_all

theorem W64_pos : 0 < W64 :=
  pow_pos (by decide) 64

theorem process_count_lt (c : Counter) (hc : c.count < W64) :
    (gpio_counter_process_state_change c).count < W64 := by
  rw [process_count]
  split
  · exact Nat.mod_lt _ W64_pos
  · exact hc

/-- With debounce disabled, one interrupt is exactly the confirmation step
run on the freshly sampled state. -/
theorem irqStep_nodebounce (c : Counter) (raw : Bool)
    (hd : c.pdata.debounce_ms = 0) :
    irqStep c raw =
      gpio_counter_process_state_change
        { c with state := xor raw c.pdata.inverted } := by
  simp [irqStep, gpio_counter_irq, gpio_counter_get_state, hd]

/-- Count evolution of an interrupt run with debounce disabled: the count
advances, modulo the `unsigned long` width, by the number of rising edges of
the polarity-adjusted sample sequence relative to the committed state. -/
theorem runIrqs_count_nodebounce (raws : List Bool) (c : Counter)
    (hd : c.pdata.debounce_ms = 0) (hc : c.count < W64) :
    (runIrqs c raws).count =
      (c.count +
        risingEdges c.last_state
          (raws.map (fun r => xor r c.pdata.inverted))) % W64 := by
  induction raws generalizing c with
  | nil =>
    simp [runIrqs, risingEdges, Nat.mod_eq_of_lt hc]
  | cons r rs ih =>
    have hstep : runIrqs c (r :: rs) = runIrqs (irqStep c r) rs := rfl
    rw [hstep, irqStep_nodebounce c r hd]
    set c1 := gpio_counter_process_state_change
      { c with state := xor r c.pdata.inverted } with hc1
    have h1 : c1.pdata.debounce_ms = 0 := by
      rw [hc1, process_pdata]
      exact hd
    have h2 : c1.count < W64 := by
      rw [hc1]
      exact process_count_lt _ hc
    rw [ih c1 h1 h2]
    have hcount : c1.count =
        if (xor r c.pdata.inverted) && !c.last_state
        then (c.count + 1) % W64 else c.count := by
      rw [hc1, process_count]
    have hls : c1.last_state = xor r c.pdata.inverted := by
      rw [hc1, process_last_state]
    have hpd : c1.pdata = c.pdata := by
      rw [hc1, process_pdata]
    rw [hls, hpd, hcount]
    simp only [List.map_cons, risingEdges]
    by_cases hb : (xor r c.pdata.inverted) && !c.last_state
    · simp only [hb, if_pos, Nat.mod_add_mod]
      ring_nf
    · simp only [hb, if_neg, Bool.not_eq_true]
      simp at hb
      simp [hb]

/-- An interrupt arriving while a debounce work item is outstanding never
schedules another one and leaves the outstanding count unchanged. -/
theorem irq_pending_no_arm (c : Counter) (raw : Bool)
    (h : c.work_outstanding ≠ 0) :
    (gpio_counter_irq raw c).1.work_outstanding = c.work_outstanding ∧
    (gpio_counter_irq raw c).2 = none := by
  unfold gpio_counter_irq
  by_cases hd : c.pdata.debounce_ms = 0 <;>
    simp [hd, delayed_work_pending, h]

/-- A whole burst of interrupts arriving while a debounce work item is
outstanding schedules nothing and leaves the outstanding count unchanged. -/
theorem runIrqs_pending_no_arm (raws : List Bool) (c : Counter)
    (h : c.work_outstanding ≠ 0) :
    countArms c raws = 0 ∧
    (runIrqs c raws).work_outstanding = c.work_outstanding := by
  induction raws generalizing c with
  | nil => simp [countArms, runIrqs]
  | cons r rs ih =>
    obtain ⟨h1, h2⟩ := irq_pending_no_arm c r h
    have hne : (gpio_counter_irq r c).1.work_outstanding ≠ 0 := by
      rw [h1]; exact h
    obtain ⟨ih1, ih2⟩ := ih _ hne
    refine ⟨?_, ?_⟩
    · simp [countArms, h2, ih1]
    · show (runIrqs (gpio_counter_irq r c).1 rs).work_outstanding = _
      rw [ih2, h1]

/-- A single interrupt preserves the at-most-one-outstanding-work bound. -/
theorem irq_outstanding_le_one (c : Counter) (raw : Bool)
    (h : c.work_outstanding ≤ 1) :
    (gpio_counter_irq raw c).1.work_outstanding ≤ 1 := by
  unfold gpio_counter_irq
  by_cases hd : c.pdata.debounce_ms = 0
  · simpa [hd] using h
  · by_cases hw : c.work_outstanding = 0 <;>
      simp [hd, hw, delayed_work_pending, h]

/-! ## Claim theorems -/

/-- C1: the shared confirmation step `gpio_counter_process_state_change`
increments `count` by exactly one (modulo the `unsigned long` width, hence
exactly one whenever no wraparound occurs) precisely when the new state is
HIGH and the last confirmed state was LOW, leaves `count` unchanged in every
other case, and unconditionally commits `last_state := state`. -/
theorem confirm_rising_edge_only (c : Counter) :
    (gpio_counter_process_state_change c).last_state = c.state ∧
    (c.state = true ∧ c.last_state = false →
      (gpio_counter_process_state_change c).count = (c.count + 1) % W64 ∧
      (c.count + 1 < W64 → (gpio_counter_process_state_change c).count = c.count + 1)) ∧
    (¬(c.state = true ∧ c.last_state = false) →
      (gpio_counter_process_state_change c).count = c.count) := by
  rcases c with ⟨pd, cnt, st, ls, wo⟩
  cases st <;> cases ls <;>
    simp [gpio_counter_process_state_change] <;>
    exact fun h => Nat.mod_eq_of_lt h

/-- Witness for `confirm_rising_edge_only` at a concrete rising edge and a
concrete falling edge. -/
theorem confirm_rising_edge_only_witness :
    (gpio_counter_process_state_change
      { pdata := ⟨false, 0⟩, count := 5, state := true, last_state := false,
        work_outstanding := 0 }).count = 6 ∧
    (gpio_counter_process_state_change
      { pdata := ⟨false, 0⟩, count := 5, state := false, last_state := true,
        work_outstanding := 0 }).count = 5 :=
  ⟨((confirm_rising_edge_only _).2.1 (by decide)).2 (by decide),
   (confirm_rising_edge_only _).2.2 (by decide)⟩

/-- C2: the debounce-expiry handler takes a fresh polarity-adjusted sample
and runs the confirmation step iff it equals the interrupt-time `state`;
when they differ, `count` and `last_state` (and `state`) are untouched and
no work item is re-armed — the outstanding-work count only drops by the one
item that just fired, in both cases. -/
theorem debounce_expiry_confirm_iff_stable (c : Counter) (raw : Bool) :
    (gpio_counter_get_state c.pdata raw = c.state →
      gpio_counter_debounce_work raw c =
        gpio_counter_process_state_change
          { c with work_outstanding := c.work_outstanding - 1 }) ∧
    (gpio_counter_get_state c.pdata raw ≠ c.state →
      (gpio_counter_debounce_work raw c).count = c.count ∧
      (gpio_counter_debounce_work raw c).last_state = c.last_state ∧
      (gpio_counter_debounce_work raw c).state = c.state ∧
      (gpio_counter_debounce_work raw c).work_outstanding =
        c.work_outstanding - 1) := by
  constructor
  · intro h
    simp [gpio_counter_debounce_work, h]
  · intro h
    simp [gpio_counter_debounce_work, h]

/-- Witness for `debounce_expiry_confirm_iff_stable`: a stable expiry
(sample agrees, rising edge confirmed) and an unstable one (sample moved,
silently dropped). -/
theorem debounce_expiry_confirm_iff_stable_witness :
    gpio_counter_debounce_work true
      { pdata := ⟨false, 10⟩, count := 0, state := true, last_state := false,
        work_outstanding := 1 } =
      gpio_counter_process_state_change
        { pdata := ⟨false, 10⟩, count := 0, state := true, last_state := false,
          work_outstanding := 0 } ∧
    (gpio_counter_debounce_work false
      { pdata := ⟨false, 10⟩, count := 0, state := true, last_state := false,
        work_outstanding := 1 }).count = 0 :=
  ⟨(debounce_expiry_confirm_iff_stable _ true).1 (by decide),
   ((debounce_expiry_confirm_iff_stable _ false).2 (by decide)).1⟩

/-- C3: the raw-interrupt handler stores a fresh polarity-adjusted sample in
`state`; with debounce disabled it runs the confirmation step synchronously
on that sample; with debounce enabled it never touches `last_state` or
`count`, arms a work item for `debounce_ms` only when none is pending, and
does nothing further when one is pending. -/
theorem raw_irq_spec (c : Counter) (raw : Bool) :
    (gpio_counter_irq raw c).1.state = gpio_counter_get_state c.pdata raw ∧
    (c.pdata.debounce_ms = 0 →
      gpio_counter_irq raw c =
        (gpio_counter_process_state_change
          { c with state := gpio_counter_get_state c.pdata raw }, none)) ∧
    (c.pdata.debounce_ms ≠ 0 →
      (gpio_counter_irq raw c).1.last_state = c.last_state ∧
      (gpio_counter_irq raw c).1.count = c.count ∧
      (c.work_outstanding ≠ 0 →
        gpio_counter_irq raw c =
          ({ c with state := gpio_counter_get_state c.pdata raw }, none)) ∧
      (c.work_outstanding = 0 →
        gpio_counter_irq raw c =
          ({ c with
              state := gpio_counter_get_state c.pdata raw,
              work_outstanding := c.work_outstanding + 1 },
            some c.pdata.debounce_ms))) := by
  rcases c with ⟨⟨inv, dms⟩, cnt, st, ls, wo⟩
  by_cases hd : dms = 0
  · subst hd
    cases st <;> cases ls <;>
      simp [gpio_counter_irq, gpio_counter_process_state_change,
        gpio_counter_get_state, delayed_work_pending] <;>
      (try (split <;> rfl))
  · by_cases hw : wo = 0 <;>
      simp [gpio_counter_irq, gpio_counter_process_state_change,
        gpio_counter_get_state, delayed_work_pending, hd, hw]

/-- Witness for `raw_irq_spec`: with debounce disabled the confirmation runs
synchronously; with debounce enabled and an item pending, only `state`
changes and nothing is armed. -/
theorem raw_irq_spec_witness :
    gpio_counter_irq true
      { pdata := ⟨false, 0⟩, count := 3, state := false, last_state := false,
        work_outstanding := 0 } =
      (gpio_counter_process_state_change
        { pdata := ⟨false, 0⟩, count := 3, state := true, last_state := false,
          work_outstanding := 0 }, none) ∧
    gpio_counter_irq true
      { pdata := ⟨false, 10⟩, count := 3, state := false, last_state := false,
        work_outstanding := 1 } =
      ({ pdata := ⟨false, 10⟩, count := 3, state := true, last_state := false,
          work_outstanding := 1 }, none) :=
  ⟨(raw_irq_spec _ true).2.1 rfl,
   (((raw_irq_spec _ true).2.2 (by decide)).2.2.1 (by decide))⟩

/-- C9: a freshly probed instance starts with `count = 0`, no debounce work
pending, and `last_state` equal to a synchronous polarity-adjusted read of
the line (`raw0 XOR inverted`) taken during probe. -/
theorem probe_initial_state (pdata : PlatformData) (raw0 : Bool) :
    (gpio_counter_probe pdata raw0).count = 0 ∧
    delayed_work_pending (gpio_counter_probe pdata raw0) = false ∧
    (gpio_counter_probe pdata raw0).work_outstanding = 0 ∧
    (gpio_counter_probe pdata raw0).last_state =
      gpio_counter_get_state pdata raw0 ∧
    gpio_counter_get_state pdata raw0 = xor raw0 pdata.inverted := by
  refine ⟨rfl, ?_, rfl, rfl, rfl⟩
  simp [delayed_work_pending, gpio_counter_probe]

/-- The digit-emission loop ignores any surplus fuel: all fuels at least as
large as the value agree. -/
theorem decDigitsAux_fuel_irrel (f1 : Nat) :
    ∀ (f2 n : Nat), n ≤ f1 → n ≤ f2 → decDigitsAux f1 n = decDigitsAux f2 n := by
  induction f1 with
  | zero =>
    intro f2 n h1 _
    have hn : n = 0 := Nat.le_zero.mp h1
    subst hn
    cases f2 <;> simp [decDigitsAux]
  | succ f ih =>
    intro f2 n h1 h2
    by_cases h0 : n = 0
    · subst h0
      cases f2 <;> simp [decDigitsAux]
    · cases f2 with
      | zero => omega
      | succ f2' =>
        have h10 : n / 10 < n := Nat.div_lt_self (Nat.pos_of_ne_zero h0) (by decide)
        simp only [decDigitsAux, h0, if_false]
        rw [ih f2' (n / 10) (by omega) (by omega)]

/-- Unfolding rule for the decimal digits of a nonzero value. -/
theorem decDigits_succ (n : Nat) (h : n ≠ 0) :
    decDigits n = decDigits (n / 10) ++ [Char.ofNat (48 + n % 10)] := by
  cases n with
  | zero => exact absurd rfl h
  | succ m =>
    have h10 : (m + 1) / 10 < m + 1 := Nat.div_lt_self (Nat.succ_pos m) (by decide)
    show decDigitsAux (m + 1) (m + 1) = _
    simp only [decDigitsAux, Nat.succ_ne_zero, if_false]
    rw [decDigitsAux_fuel_irrel m ((m + 1) / 10) ((m + 1) / 10) (by omega) le_rfl]
    rfl

/-- The code of the character emitted for a single decimal digit. -/
theorem toNat_digitChar (d : Nat) (h : d < 10) :
    (Char.ofNat (48 + d)).toNat = 48 + d := by
  interval_cases d <;> decide

/-- A single decimal digit character decodes back to its digit. -/
theorem digitVal_digitChar (d : Nat) (h : d < 10) :
    digitVal (Char.ofNat (48 + d)) = some d := by
  interval_cases d <;> decide

/-- Every character of a decimal digit string is an ASCII digit. -/
theorem decDigits_chars (n : Nat) :
    ∀ ch ∈ decDigits n, 48 ≤ ch.toNat ∧ ch.toNat ≤ 57 := by
  induction n using Nat.strong_induction_on with
  | _ n ih =>
    by_cases h0 : n = 0
    · subst h0
      intro ch hch
      simp [decDigits, decDigitsAux] at hch
    · rw [decDigits_succ n h0]
      intro ch hch
      rcases List.mem_append.mp hch with h | h
      · exact ih (n / 10) (Nat.div_lt_self (Nat.pos_of_ne_zero h0) (by decide)) ch h
      · have hc : ch = Char.ofNat (48 + n % 10) := by simpa using h
        subst hc
        have hm : n % 10 < 10 := Nat.mod_lt _ (by decide)
        rw [toNat_digitChar _ hm]
        omega

/-- The decimal digit string of a nonzero value starts with a nonzero
digit. -/
theorem decDigits_head : ∀ n : Nat, n ≠ 0 →
    ∃ d cs, decDigits n = d :: cs ∧ 49 ≤ d.toNat ∧ d.toNat ≤ 57 := by
  intro n
  induction n using Nat.strong_induction_on with
  | _ n ih =>
    intro h
    rw [decDigits_succ n h]
    by_cases h10 : n / 10 = 0
    · rw [h10]
      refine ⟨Char.ofNat (48 + n % 10), [], ?_, ?_, ?_⟩
      · simp [decDigits, decDigitsAux]
      · rw [toNat_digitChar _ (by omega)]
        omega
      · rw [toNat_digitChar _ (by omega)]
        omega
    · obtain ⟨d, cs, hdc, h49, h57⟩ :=
        ih (n / 10) (Nat.div_lt_self (Nat.pos_of_ne_zero h) (by decide)) h10
      refine ⟨d, cs ++ [Char.ofNat (48 + n % 10)], ?_, h49, h57⟩
      rw [hdc]
      simp

/-- Pushing a decimal digit string through the accumulation loop of
`_parse_integer` at base 10 consumes all of it and folds its value into the
accumulator. -/
theorem parse_decDigits : ∀ n : Nat, ∀ (res rv : Nat) (tail : List Char),
    _parse_integer 10 res rv (decDigits n ++ tail) =
      _parse_integer 10 (res * 10 ^ (decDigits n).length + n)
        (rv + (decDigits n).length) tail := by
  intro n
  induction n using Nat.strong_induction_on with
  | _ n ih =>
    intro res rv tail
    by_cases h0 : n = 0
    · subst h0
      simp [decDigits, decDigitsAux]
    · rw [decDigits_succ n h0, List.append_assoc]
      have hlt : n / 10 < n := Nat.div_lt_self (Nat.pos_of_ne_zero h0) (by decide)
      rw [ih (n / 10) hlt res rv _]
      have hm : n % 10 < 10 := Nat.mod_lt _ (by decide)
      simp only [List.singleton_append, _parse_integer, digitVal_digitChar _ hm]
      rw [if_neg (by omega)]
      have hdm : n / 10 * 10 + n % 10 = n := by omega
      have hval : (res * 10 ^ (decDigits (n / 10)).length + n / 10) * 10 + n % 10 =
          res * 10 ^ ((decDigits (n / 10)).length + 1) + n := by
        calc (res * 10 ^ (decDigits (n / 10)).length + n / 10) * 10 + n % 10
            = res * (10 ^ (decDigits (n / 10)).length * 10) +
                (n / 10 * 10 + n % 10) := by ring
          _ = res * 10 ^ ((decDigits (n / 10)).length + 1) + n := by
                rw [pow_succ, hdm]
      rw [hval]
      simp only [List.length_append, List.length_singleton]
      congr 1

/-- Bound on the number of decimal digits. -/
theorem decDigits_length_le : ∀ (k n : Nat), n < 10 ^ k →
    (decDigits n).length ≤ k := by
  intro k
  induction k with
  | zero =>
    intro n h
    have hn : n = 0 := by omega
    subst hn
    simp [decDigits, decDigitsAux]
  | succ k ih =>
    intro n h
    by_cases h0 : n = 0
    · subst h0
      simp [decDigits, decDigitsAux]
    · rw [decDigits_succ n h0]
      simp only [List.length_append, List.length_singleton]
      have hdiv : n / 10 < 10 ^ k := by
        rw [Nat.div_lt_iff_lt_mul (by decide : 0 < 10)]
        calc n < 10 ^ (k + 1) := h
          _ = 10 ^ k * 10 := by rw [pow_succ]
      have := ih _ hdiv
      omega

/-- The text `sprintf("%lu", n)` produces, with or without the trailing
newline the driver appends, parses back to `n` under the kernel's base-0
string-to-unsigned-long conversion: the read format and the write parser
agree. -/
theorem kstrtoul_decimal_roundtrip (n : Nat) (hn : n < W64) (tail : List Char)
    (htail : tail = [] ∨ tail = ['\n']) :
    kstrtoul ((if n = 0 then ['0'] else decDigits n) ++ tail) = Except.ok n := by
  by_cases h0 : n = 0
  · subst h0
    rcases htail with rfl | rfl <;> rfl
  · rw [if_neg h0]
    obtain ⟨d, cs, hdc, h49, h57⟩ := decDigits_head n h0
    have hd0 : (decDigits n ++ tail).getD 0 nulChar = d := by
      rw [hdc, List.cons_append]
      rfl
    have hdplus : d ≠ '+' := by
      intro he
      rw [he] at h49
      exact absurd h49 (by decide)
    have hdzero : d ≠ '0' := by
      intro he
      rw [he] at h49
      exact absurd h49 (by decide)
    have hfix : fixup_radix (decDigits n ++ tail) = (decDigits n ++ tail, 10) := by
      unfold fixup_radix
      rw [hd0, if_neg hdzero]
    have hlen : (decDigits n).length ≠ 0 := by
      rw [hdc]
      simp
    have hparse : _parse_integer 10 0 0 (decDigits n ++ tail) =
        (n, (decDigits n).length, tail) := by
      rw [parse_decDigits n 0 0 tail]
      rcases htail with rfl | rfl
      · simp [_parse_integer]
      · simp [_parse_integer, digitVal]
    unfold kstrtoul
    rw [hd0, if_neg hdplus]
    unfold _kstrtoull
    rw [hfix]
    simp only
    rw [hparse]
    simp only
    rw [if_neg (not_le.mpr hn), if_neg hlen]
    rcases htail with rfl | rfl <;> simp

/-- The debounce work item, once fired, always accounts for its own
completion: the outstanding count drops by one whether or not it confirms. -/
theorem debounce_work_outstanding (c : Counter) (raw : Bool) :
    (gpio_counter_debounce_work raw c).work_outstanding =
      c.work_outstanding - 1 := by
  unfold gpio_counter_debounce_work
  simp only []
  split <;> simp

/-- An external write touches at most `count`: every other field of the
instance survives, whether the parse succeeds or fails. -/
theorem write_frame (c : Counter) (userbuf : List Char) (count : Nat) :
    (gpio_counter_write c userbuf count).1.pdata = c.pdata ∧
    (gpio_counter_write c userbuf count).1.state = c.state ∧
    (gpio_counter_write c userbuf count).1.last_state = c.last_state ∧
    (gpio_counter_write c userbuf count).1.work_outstanding =
      c.work_outstanding := by
  unfold gpio_counter_write
  cases kstrtoul_from_user userbuf count <;> simp

/-- C4: with debounce disabled, a run of interrupts whose polarity-adjusted
samples contain exactly `N` rising edges relative to the committed state
(clean LOW-to-HIGH transitions, interleaved with any number of falling
ones) increases `count` by exactly `N`; the falling transitions contribute
nothing.  The no-wraparound bound `c.count + N < W64` is the natural
`unsigned long` width limit. -/
theorem clean_rising_edges_add_exactly_n (c : Counter) (raws : List Bool)
    (N : Nat) (hd : c.pdata.debounce_ms = 0) (hc : c.count < W64)
    (hN : risingEdges c.last_state
      (raws.map (fun r => xor r c.pdata.inverted)) = N)
    (hno : c.count + N < W64) :
    (runIrqs c raws).count = c.count + N := by
  rw [runIrqs_count_nodebounce raws c hd hc, hN, Nat.mod_eq_of_lt hno]

/-- Witness for `clean_rising_edges_add_exactly_n`: two clean rising edges
interleaved with falling ones, starting from a probed instance, add exactly
two. -/
theorem clean_rising_edges_add_exactly_n_witness :
    (runIrqs (gpio_counter_probe ⟨false, 0⟩ false)
      [true, false, true, false]).count = 0 + 2 :=
  clean_rising_edges_add_exactly_n _ [true, false, true, false] 2
    rfl (by decide) (by decide) (by decide)

/-- C5: single-flight invariant.  Every state reachable from a probed
instance has at most one debounce work item outstanding, and from any state
where one is pending, a burst of `N` further raw interrupts schedules no
additional work item and leaves the outstanding count unchanged — so the
burst produces at most the one already-scheduled expiry check. -/
theorem single_flight_invariant (pdata : PlatformData) (raw0 : Bool)
    (c : Counter) (h : Reach (gpio_counter_probe pdata raw0) c) :
    c.work_outstanding ≤ 1 ∧
    (∀ raws : List Bool, delayed_work_pending c = true →
      countArms c raws = 0 ∧
      (runIrqs c raws).work_outstanding = c.work_outstanding) := by
  refine ⟨?_, ?_⟩
  · induction h with
    | init => exact Nat.zero_le 1
    | irq raw hr ih => exact irq_outstanding_le_one _ raw ih
    | work raw hr hp ih =>
      rw [debounce_work_outstanding]
      omega
    | write userbuf count hr ih =>
      rw [(write_frame _ userbuf count).2.2.2]
      exact ih
  · intro raws hp
    refine runIrqs_pending_no_arm raws c ?_
    simpa [delayed_work_pending] using hp

/-- Witness for `single_flight_invariant`: the probed instance itself
satisfies the bound, and after one interrupt arms the debounce work, three
more interrupts inside the window schedule nothing. -/
theorem single_flight_invariant_witness :
    (gpio_counter_probe ⟨false, 10⟩ false).work_outstanding ≤ 1 ∧
    countArms (gpio_counter_irq true (gpio_counter_probe ⟨false, 10⟩ false)).1
      [false, true, false] = 0 :=
  ⟨(single_flight_invariant ⟨false, 10⟩ false _ Reach.init).1,
   ((single_flight_invariant ⟨false, 10⟩ false _
      (Reach.irq true Reach.init)).2 [false, true, false] (by decide)).1⟩

/-- The external write interface accepts the plain decimal text of any
value below the `unsigned long` limit. -/
theorem kstrtoul_from_user_decimal (v : Nat) (hv : v < W64) :
    kstrtoul_from_user (if v = 0 then ['0'] else decDigits v)
      (if v = 0 then ['0'] else decDigits v).length = Except.ok v := by
  unfold kstrtoul_from_user
  have hlen : (if v = 0 then ['0'] else decDigits v).length ≤ 66 := by
    by_cases h0 : v = 0
    · simp [h0]
    · rw [if_neg h0]
      have h20 : (decDigits v).length ≤ 20 :=
        decDigits_length_le 20 v (lt_trans hv (by decide))
      omega
  have hchars : ∀ ch ∈ (if v = 0 then ['0'] else decDigits v),
      48 ≤ ch.toNat ∧ ch.toNat ≤ 57 := by
    by_cases h0 : v = 0
    · simp [h0]
    · rw [if_neg h0]
      exact decDigits_chars v
  rw [Nat.min_eq_left hlen, List.take_of_length_le le_rfl,
    List.takeWhile_eq_self_iff.mpr ?hp]
  case hp =>
    intro ch hch
    have := hchars ch hch
    simp only [decide_eq_true_eq, ne_eq]
    omega
  have := kstrtoul_decimal_roundtrip v hv [] (Or.inl rfl)
  rwa [List.append_nil] at this

/-- C6: a successful external write (the `overwrite` operation) replaces
`count` with the parsed value and leaves `last_state`, `state` and the
debounce-pending marker untouched; a subsequently confirmed rising
transition from a LOW committed state then yields `v + 1`; and every value
below the `unsigned long` limit is accepted via its decimal text. -/
theorem overwrite_independence (c : Counter) (userbuf : List Char)
    (count v : Nat) (hok : kstrtoul_from_user userbuf count = Except.ok v) :
    ((gpio_counter_write c userbuf count).1.count = v ∧
      (gpio_counter_write c userbuf count).1.last_state = c.last_state ∧
      (gpio_counter_write c userbuf count).1.state = c.state ∧
      (gpio_counter_write c userbuf count).1.work_outstanding =
        c.work_outstanding) ∧
    (c.last_state = false → v + 1 < W64 →
      (gpio_counter_process_state_change
        { (gpio_counter_write c userbuf count).1 with
            state := true }).count = v + 1) ∧
    (∀ w : Nat, w < W64 →
      (gpio_counter_write c (if w = 0 then ['0'] else decDigits w)
        (if w = 0 then ['0'] else decDigits w).length).1.count = w) := by
  refine ⟨?_, ?_, ?_⟩
  · unfold gpio_counter_write
    rw [hok]
    simp
  · intro hls hlt
    have hw : (gpio_counter_write c userbuf count).1 =
        { c with count := v } := by
      unfold gpio_counter_write
      rw [hok]
    rw [hw, process_count]
    simp [hls, Nat.mod_eq_of_lt hlt]
  · intro w hw
    unfold gpio_counter_write
    rw [kstrtoul_from_user_decimal w hw]

/-- Witness for `overwrite_independence`: writing the text `"42"` sets the
count to 42 without touching the committed state, and a confirmed rising
transition afterwards yields 43. -/
theorem overwrite_independence_witness :
    (gpio_counter_write
      { pdata := ⟨false, 0⟩, count := 7, state := false, last_state := false,
        work_outstanding := 0 } ['4', '2'] 2).1.count = 42 ∧
    (gpio_counter_process_state_change
      { (gpio_counter_write
          { pdata := ⟨false, 0⟩, count := 7, state := false, last_state := false,
            work_outstanding := 0 } ['4', '2'] 2).1 with
          state := true }).count = 43 :=
  ⟨((overwrite_independence _ ['4', '2'] 2 42 rfl).1).1,
   (overwrite_independence _ ['4', '2'] 2 42 rfl).2.1 rfl (by decide)⟩

/-- C7: a read with a big-enough destination buffer at offset 0 hands out
exactly the decimal text of `count` followed by a newline and returns its
byte length (advancing the offset to it); a read at a nonzero offset
returns 0 bytes; a too-small destination buffer is a usage error
(`-EINVAL`); and the bytes handed out are genuinely the decimal
representation: the kernel string-to-integer parser maps them back to
`count`. -/
theorem read_decimal_text (c : Counter) (cap ppos : Nat) :
    ((sprintf_lu_nl c.count).length ≤ cap → ppos = 0 →
      gpio_counter_read c cap ppos =
        ReadResult.data (sprintf_lu_nl c.count)
          (sprintf_lu_nl c.count).length) ∧
    ((sprintf_lu_nl c.count).length ≤ cap → ppos ≠ 0 →
      gpio_counter_read c cap ppos = ReadResult.empty) ∧
    (cap < (sprintf_lu_nl c.count).length →
      gpio_counter_read c cap ppos = ReadResult.err (-22)) ∧
    (c.count < W64 → kstrtoul (sprintf_lu_nl c.count) = Except.ok c.count) := by
  refine ⟨?_, ?_, ?_, ?_⟩
  · intro h1 h2
    unfold gpio_counter_read
    rw [if_neg (Nat.not_lt.mpr h1), if_neg (by simp [h2])]
  · intro h1 h2
    unfold gpio_counter_read
    rw [if_neg (Nat.not_lt.mpr h1), if_pos h2]
  · intro h1
    unfold gpio_counter_read
    rw [if_pos h1]
  · intro h1
    exact kstrtoul_decimal_roundtrip c.count h1 ['\n'] (Or.inr rfl)

/-- Witness for `read_decimal_text`: with `count = 7` a big-enough read at
offset 0 returns exactly the two bytes `"7\n"`, a read at offset 2 returns
empty, and the bytes parse back to 7. -/
theorem read_decimal_text_witness :
    gpio_counter_read
      { pdata := ⟨false, 0⟩, count := 7, state := false, last_state := false,
        work_outstanding := 0 } 25 0 = ReadResult.data ['7', '\n'] 2 ∧
    gpio_counter_read
      { pdata := ⟨false, 0⟩, count := 7, state := false, last_state := false,
        work_outstanding := 0 } 25 2 = ReadResult.empty ∧
    kstrtoul ['7', '\n'] = Except.ok 7 :=
  ⟨(read_decimal_text _ 25 0).1 (by decide) rfl,
   (read_decimal_text _ 25 2).2.1 (by decide) (by decide),
   (read_decimal_text
      { pdata := ⟨false, 0⟩, count := 7, state := false, last_state := false,
        work_outstanding := 0 } 25 0).2.2.2 (by decide)⟩

/-- C8: the external write interface accepts decimal (`"7"`),
hex-prefixed (`"0x7"`) and octal-prefixed (`"07"`) text, each setting
`count` to 7 and reporting the full byte count back; in general a
successful parse stores the parsed value and returns the byte count, and a
failed parse returns `-EINVAL` with the stored count (and everything else)
unchanged. -/
theorem write_accepts_dec_hex_oct_rejects_malformed :
    (∀ c : Counter, (gpio_counter_write c ['7'] 1).1.count = 7 ∧
      (gpio_counter_write c ['7'] 1).2 = 1) ∧
    (∀ c : Counter, (gpio_counter_write c ['0', 'x', '7'] 3).1.count = 7 ∧
      (gpio_counter_write c ['0', 'x', '7'] 3).2 = 3) ∧
    (∀ c : Counter, (gpio_counter_write c ['0', '7'] 2).1.count = 7 ∧
      (gpio_counter_write c ['0', '7'] 2).2 = 2) ∧
    (∀ (c : Counter) (userbuf : List Char) (count v : Nat),
      kstrtoul_from_user userbuf count = Except.ok v →
      gpio_counter_write c userbuf count =
        ({ c with count := v }, Int.ofNat count)) ∧
    (∀ (c : Counter) (userbuf : List Char) (count : Nat) (e : Int),
      kstrtoul_from_user userbuf count = Except.error e →
      gpio_counter_write c userbuf count = (c, -22)) := by
  refine ⟨fun c => ⟨rfl, rfl⟩, fun c => ⟨rfl, rfl⟩, fun c => ⟨rfl, rfl⟩,
    ?_, ?_⟩
  · intro c userbuf count v hok
    unfold gpio_counter_write
    rw [hok]
  · intro c userbuf count e herr
    unfold gpio_counter_write
    rw [herr]

/-- Witness for `write_accepts_dec_hex_oct_rejects_malformed`: the
malformed text `"zz"` leaves a concrete counter untouched and yields
`-EINVAL`, while `"0x7"` stores 7. -/
theorem write_accepts_dec_hex_oct_rejects_malformed_witness :
    gpio_counter_write
      { pdata := ⟨false, 0⟩, count := 5, state := false, last_state := false,
        work_outstanding := 0 } ['z', 'z'] 2 =
      ({ pdata := ⟨false, 0⟩, count := 5, state := false, last_state := false,
         work_outstanding := 0 }, -22) ∧
    (gpio_counter_write
      { pdata := ⟨false, 0⟩, count := 5, state := false, last_state := false,
        work_outstanding := 0 } ['0', 'x', '7'] 3).1.count = 7 :=
  ⟨write_accepts_dec_hex_oct_rejects_malformed.2.2.2.2 _ ['z', 'z'] 2
      (-22) rfl,
   (write_accepts_dec_hex_oct_rejects_malformed.2.1 _).1⟩

/-- C10: the buffer-size check of the read operation precedes the offset
check — whenever the destination buffer is smaller than the formatted
length of `count`, the read fails with `-EINVAL` for every offset,
including nonzero ones where the offset rule alone would return empty. -/
theorem read_size_check_precedes_offset_check (c : Counter) (cap ppos : Nat)
    (h : cap < (sprintf_lu_nl c.count).length) :
    gpio_counter_read c cap ppos = ReadResult.err (-22) := by
  unfold gpio_counter_read
  rw [if_pos h]

/-- Witness for `read_size_check_precedes_offset_check`: a 1-byte buffer at
the nonzero offset 5 yields `-EINVAL`, not an empty read. -/
theorem read_size_check_precedes_offset_check_witness :
    gpio_counter_read
      { pdata := ⟨false, 0⟩, count := 7, state := false, last_state := false,
        work_outstanding := 0 } 1 5 = ReadResult.err (-22) :=
  read_size_check_precedes_offset_check _ 1 5 (by decide)

end GpioCounter
